import Mathlib

/-!
Verification development for `run.py`, an implementation of the SNIA Solid
State Storage Performance Test Specification (IOPS test).

The Python program is shallowly embedded:
* real-valued measurements (Python floats) are modelled as exact rationals
  `ℚ`; the spec states all thresholds (`0.2 * avg`, `0.1 * avg`) as exact
  real-number comparisons, and we follow that semantics;
* the measurement loop is modelled as structural recursion over the list of
  round numbers `1..25`, with the external `fio` collaborator abstracted as
  an oracle giving the read/write IOPS counters per (round, mix-ratio,
  block-size) cell;
* the fail-fast collaborator wrappers (`run`, `save_file`, `read_file`,
  JSON parsing: every failure calls `sys.exit(1)`) are modelled with an
  `Except`-valued executor through which errors short-circuit.
-/

namespace SssPts

/-- Python's builtin `max` over a nonempty list (`0` for the empty list,
which the guarded call sites never produce). -/
def listMax : List ℚ → ℚ
  | [] => 0
  | x :: xs => xs.foldl max x

/-- Python's builtin `min` over a nonempty list (`0` for the empty list). -/
def listMin : List ℚ → ℚ
  | [] => 0
  | x :: xs => xs.foldl min x

/-- Numpy's `np.mean`: arithmetic mean of a list (`0/0 = 0` for the empty list). -/
def mean (l : List ℚ) : ℚ := l.sum / (l.length : ℚ)

/-- Scipy's `stats.linregress(xvalues, yvalues).slope`: the ordinary
least-squares slope `Σ (xᵢ - x̄)(yᵢ - ȳ) / Σ (xᵢ - x̄)²`. -/
def olsSlope (xs ys : List ℚ) : ℚ :=
  (((xs.zip ys).map fun p => (p.1 - mean xs) * (p.2 - mean ys)).sum) /
    ((xs.map fun x => (x - mean xs) * (x - mean xs)).sum)

/-- The test on line 489 of `run.py`: criterion a) fails when
`yrange >= 0.2 * yavg`. -/
def rangeTestFails (yavg yrange : ℚ) : Bool := 0.2 * yavg ≤ yrange

/-- The test on line 509 of `run.py`: criterion b) fails when
`yrange_fit >= 0.1 * yavg`. -/
def fitTestFails (yavg yrange_fit : ℚ) : Bool := 0.1 * yavg ≤ yrange_fit

/-- The measurement window `values[-window_size:]` (for `window_size ≥ 1`;
the Python `-0` slicing quirk at `window_size = 0` is not modelled, no call
site uses it). -/
def lastWindow (values : List ℚ) (window_size : ℕ) : List ℚ :=
  values.drop (values.length - window_size)

/-- The x-values `list(range(len(values) - window_size + 1, len(values) + 1))`
used for the linear fit: the absolute round numbers of the window. -/
def xValues (values : List ℚ) (window_size : ℕ) : List ℚ :=
  (List.range' (values.length - window_size + 1) window_size).map fun i : ℕ => (i : ℚ)

/-- The value `yavg = np.mean(yvalues)` from line 484: the window's arithmetic mean
(the window has exactly `window_size` elements whenever the length guard
has passed). -/
def yavgOf (values : List ℚ) (window_size : ℕ) : ℚ :=
  (lastWindow values window_size).sum / (window_size : ℚ)

/-- The value `yrange = max(yvalues) - min(yvalues)` from line 485. -/
def yrangeOf (values : List ℚ) (window_size : ℕ) : ℚ :=
  listMax (lastWindow values window_size) - listMin (lastWindow values window_size)

/-- The value `yrange_fit = abs(res.slope) * (window_size - 1)` from line 503, with
`res = stats.linregress(xvalues, yvalues)` from line 500. -/
def yrangeFitOf (values : List ℚ) (window_size : ℕ) : ℚ :=
  |olsSlope (xValues values window_size) (lastWindow values window_size)| *
    ((window_size : ℚ) - 1)

/-- The function `in_steady_state(values, window_size)` from `run.py` lines 472-521:
`True` iff the series is long enough, criterion a) (the range test) does not
fail and criterion b) (the linear-fit trend test) does not fail.  The source
computes the linear fit only after criterion a) passes; both are pure, so
the value is the same. -/
def in_steady_state (values : List ℚ) (window_size : ℕ) : Bool :=
  if values.length < window_size then
    false
  else if rangeTestFails (yavgOf values window_size) (yrangeOf values window_size) then
    false
  else if fitTestFails (yavgOf values window_size) (yrangeFitOf values window_size) then
    false
  else
    true

example : in_steady_state [100, 150, 100, 150, 100] 5 = false := by with_unfolding_all decide
example : in_steady_state [100, 101, 102, 103, 104] 5 = true := by with_unfolding_all decide
example : in_steady_state [(100 : ℚ), 100, 100, 100, 100] 5 = true := by with_unfolding_all decide
example : in_steady_state [(100 : ℚ), 100, 100] 5 = false := by with_unfolding_all decide
example : in_steady_state [(0 : ℚ), 0, 0, 0, 0] 5 = false := by with_unfolding_all decide

/-! ### Basic facts about the statistics helpers -/

lemma rangeTestFails_eq_true_iff (a b : ℚ) : rangeTestFails a b = true ↔ 0.2 * a ≤ b := by
  simp [rangeTestFails]

lemma fitTestFails_eq_true_iff (a b : ℚ) : fitTestFails a b = true ↔ 0.1 * a ≤ b := by
  simp [fitTestFails]

lemma foldl_min_le (xs : List ℚ) (x : ℚ) : xs.foldl min x ≤ x := by
  induction xs generalizing x with
  | nil => exact le_refl x
  | cons y ys ih => exact le_trans (ih (min x y)) (min_le_left x y)

lemma le_foldl_max (xs : List ℚ) (x : ℚ) : x ≤ xs.foldl max x := by
  induction xs generalizing x with
  | nil => exact le_refl x
  | cons y ys ih => exact le_trans (le_max_left x y) (ih (max x y))

lemma listMin_le_listMax (l : List ℚ) : listMin l ≤ listMax l := by
  cases l with
  | nil => exact le_refl 0
  | cons x xs => exact le_trans (foldl_min_le xs x) (le_foldl_max xs x)

lemma yrangeOf_nonneg (values : List ℚ) (w : ℕ) : 0 ≤ yrangeOf values w :=
  sub_nonneg.mpr (listMin_le_listMax _)

/-! ### C1 -/

/-- C1: for the fixed window size 5, `in_steady_state(series, 5)` returns
stable iff the series has at least 5 elements, the window's `max - min` is
strictly below `0.2` times the window mean, and `|OLS slope| * (5 - 1)` is
strictly below `0.1` times that mean; a shorter series is always classified
unstable, and a value exactly equal to either threshold fails that
criterion (the comparisons are strict). -/
theorem in_steady_state_iff_five (values : List ℚ) :
    (in_steady_state values 5 = true ↔
      5 ≤ values.length ∧
        yrangeOf values 5 < 0.2 * yavgOf values 5 ∧
        yrangeFitOf values 5 < 0.1 * yavgOf values 5) ∧
    (values.length < 5 → in_steady_state values 5 = false) := by
  unfold in_steady_state
  split_ifs with h1 h2 h3
  · exact ⟨by simp [Nat.not_le.mpr h1], fun _ => rfl⟩
  · refine ⟨⟨fun h => absurd h (by simp), fun h => ?_⟩, fun h => absurd h h1⟩
    exact absurd h.2.1 (not_lt.mpr ((rangeTestFails_eq_true_iff _ _).mp h2))
  · refine ⟨⟨fun h => absurd h (by simp), fun h => ?_⟩, fun h => absurd h h1⟩
    exact absurd h.2.2 (not_lt.mpr ((fitTestFails_eq_true_iff _ _).mp h3))
  · refine ⟨⟨fun _ => ⟨not_lt.mp h1, ?_, ?_⟩, fun _ => rfl⟩, fun h => absurd h h1⟩
    · exact not_le.mp fun h => h2 ((rangeTestFails_eq_true_iff _ _).mpr h)
    · exact not_le.mp fun h => h3 ((fitTestFails_eq_true_iff _ _).mpr h)

/-! ### C2

The spec's edge-case sentence claims that with a zero window mean a
zero-range window "passes trivially".  The code compares
`yrange >= 0.2 * yavg`, i.e. `0 >= 0` for a zero range and zero mean, which
holds, so criterion a) *fails* and the window is classified unstable: with
a zero mean every window fails the range test, zero range included. -/

/-- C2 counterexample: the window of five zeros has range 0 and mean 0, yet
the range criterion fails (`rangeTestFails` is true, so `in_steady_state`
returns unstable), contradicting "any zero range passes trivially". -/
theorem zero_window_fails_range_test :
    yrangeOf [(0 : ℚ), 0, 0, 0, 0] 5 = 0 ∧
    yavgOf [(0 : ℚ), 0, 0, 0, 0] 5 = 0 ∧
    rangeTestFails (yavgOf [(0 : ℚ), 0, 0, 0, 0] 5) (yrangeOf [(0 : ℚ), 0, 0, 0, 0] 5) = true ∧
    in_steady_state [(0 : ℚ), 0, 0, 0, 0] 5 = false := by
  with_unfolding_all decide

/-- C2 (amended): when the measurement window's arithmetic mean is 0, every
window fails the range criterion — nonzero range or zero range alike, since
`range ≥ 0 = 0.2 * avg` always holds — and `in_steady_state` returns
unstable. -/
theorem zero_mean_window_unstable (values : List ℚ) (w : ℕ)
    (havg : yavgOf values w = 0) :
    rangeTestFails (yavgOf values w) (yrangeOf values w) = true ∧
    in_steady_state values w = false := by
  have hfail : rangeTestFails (yavgOf values w) (yrangeOf values w) = true := by
    rw [rangeTestFails_eq_true_iff, havg, mul_zero]
    exact yrangeOf_nonneg values w
  refine ⟨hfail, ?_⟩
  unfold in_steady_state
  split_ifs <;> simp_all

/-- C2 witness: the amended theorem applied to the all-zero window. -/
theorem zero_mean_window_unstable_witness :
    rangeTestFails (yavgOf [(0 : ℚ), 0, 0, 0, 0] 5) (yrangeOf [(0 : ℚ), 0, 0, 0, 0] 5) = true ∧
    in_steady_state [(0 : ℚ), 0, 0, 0, 0] 5 = false :=
  zero_mean_window_unstable [(0 : ℚ), 0, 0, 0, 0] 5 (by with_unfolding_all decide)

/-! ### C10: the verdict depends only on the trailing window

The x-values of the linear fit are the absolute round numbers
`len - w + 1 .. len`, which differ between two series of different lengths,
but the OLS slope is invariant under translating the x-values. -/

lemma sum_map_add_const (xs : List ℚ) (c : ℚ) :
    (xs.map fun x => x + c).sum = xs.sum + xs.length * c := by
  induction xs with
  | nil => simp
  | cons y ys ih => simp [ih]; ring

lemma mean_map_add_const (xs : List ℚ) (c : ℚ) (h : xs ≠ []) :
    mean (xs.map fun x => x + c) = mean xs + c := by
  have hl : (xs.length : ℚ) ≠ 0 := Nat.cast_ne_zero.mpr (List.length_pos.mpr h).ne'
  unfold mean
  rw [List.length_map, sum_map_add_const]
  field_simp
  ring

lemma olsSlope_shift (xs ys : List ℚ) (c : ℚ) :
    olsSlope (xs.map fun x => x + c) ys = olsSlope xs ys := by
  cases xs with
  | nil => rfl
  | cons x xs' =>
    unfold olsSlope
    rw [mean_map_add_const _ c (by simp)]
    congr 1
    · rw [List.zip_map_left, List.map_map]
      refine congrArg List.sum (List.map_congr_left fun p _ => ?_)
      simp only [Function.comp_apply, Prod.map_fst, Prod.map_snd, id_eq]
      ring
    · rw [List.map_map]
      refine congrArg List.sum (List.map_congr_left fun z _ => ?_)
      simp only [Function.comp_apply]
      ring

lemma range'_cast_succ (a w : ℕ) :
    (List.range' (a + 1) w).map (fun i : ℕ => (i : ℚ)) =
      ((List.range' a w).map fun i : ℕ => (i : ℚ)).map (fun x => x + 1) := by
  rw [Nat.add_comm a 1, ← List.map_add_range' 1 a w, List.map_map, List.map_map]
  refine List.map_congr_left fun i _ => ?_
  simp only [Function.comp_apply]
  push_cast
  ring

lemma olsSlope_range'_start (w : ℕ) (ys : List ℚ) (a : ℕ) :
    olsSlope ((List.range' a w).map fun i : ℕ => (i : ℚ)) ys =
      olsSlope ((List.range' 0 w).map fun i : ℕ => (i : ℚ)) ys := by
  induction a with
  | zero => rfl
  | succ n ih => rw [range'_cast_succ, olsSlope_shift, ih]

lemma olsSlope_xValues_irrel (v1 v2 : List ℚ) (w : ℕ) (ys : List ℚ) :
    olsSlope (xValues v1 w) ys = olsSlope (xValues v2 w) ys := by
  unfold xValues
  rw [olsSlope_range'_start w ys (v1.length - w + 1),
    olsSlope_range'_start w ys (v2.length - w + 1)]

/-- C10: the stability verdict depends only on the trailing window: two
series, each at least `w` long, with equal last-`w` windows receive the same
verdict from `in_steady_state`, even though the absolute x-values fed to the
least-squares fit differ — translating the x-values does not change the
fitted slope. -/
theorem in_steady_state_depends_only_on_window (v1 v2 : List ℚ) (w : ℕ)
    (h1 : w ≤ v1.length) (h2 : w ≤ v2.length)
    (hw : lastWindow v1 w = lastWindow v2 w) :
    in_steady_state v1 w = in_steady_state v2 w := by
  unfold in_steady_state
  rw [if_neg (not_lt.mpr h1), if_neg (not_lt.mpr h2)]
  unfold yavgOf yrangeOf yrangeFitOf
  rw [hw, olsSlope_xValues_irrel v1 v2 w]

/-- C10 witness: a 6-element series and a 5-element series sharing the same
last-5 window get the same verdict. -/
theorem in_steady_state_depends_only_on_window_witness :
    in_steady_state [(7 : ℚ), 100, 100, 100, 100, 100] 5 =
      in_steady_state [(100 : ℚ), 100, 100, 100, 100] 5 :=
  in_steady_state_depends_only_on_window
    [(7 : ℚ), 100, 100, 100, 100, 100] [(100 : ℚ), 100, 100, 100, 100] 5
    (by decide) (by decide) (by with_unfolding_all decide)

/-! ### The IOPS measurement loop (`iops`, run.py lines 530-762) -/

/-- The constant `MEASUREMENT_WINDOW = 5` (line 533). -/
def MEASUREMENT_WINDOW : ℕ := 5

/-- The mix ratios of line 666: `for rr in 100, 95, 65, 50, 35, 5, 0`
(percent read). -/
def mixRatios : List ℕ := [100, 95, 65, 50, 35, 5, 0]

/-- The block sizes of line 667:
`for bs in "1024k", "128k", "64k", "32k", "16k", "8k", "4k", "512b"`. -/
def blockSizes : List String := ["1024k", "128k", "64k", "32k", "16k", "8k", "4k", "512b"]

/-- One round's workload matrix, produced by the two nested `for` loops of
lines 666-667: mix-ratio-major, block-size-minor, identical in every round
(the loops do not mention `round_num`). -/
def matrixCells (round_num : ℕ) : List (ℕ × String) :=
  let _ := round_num
  mixRatios.flatMap fun rr => blockSizes.map fun bs => (rr, bs)

/-- The three IOPS Steady State Tracking Variables, initialized empty on
lines 653-655. -/
structure TrackedSeries where
  rr0_4k_iops : List ℚ
  rr65_64k_iops : List ℚ
  rr100_1024k_iops : List ℚ
deriving DecidableEq

/-- The initialization `rr0_4k_iops = list()` and likewise for the other two. -/
def initSeries : TrackedSeries := ⟨[], [], []⟩

/-- The blended metric of lines 718-719:
`iops = (rr / 100.0) * read_iops + (1 - rr / 100.0) * write_iops`. -/
def blendedIops (rr : ℕ) (read_iops write_iops : ℚ) : ℚ :=
  (rr / 100 : ℚ) * read_iops + (1 - (rr / 100 : ℚ)) * write_iops

/-- The tracking appends of lines 733-738: the cell's blended metric is
appended to the series of the matching designated cell, if any. -/
def trackCell (s : TrackedSeries) (rr : ℕ) (bs : String) (v : ℚ) : TrackedSeries :=
  if rr = 0 ∧ bs = "4k" then
    { s with rr0_4k_iops := s.rr0_4k_iops ++ [v] }
  else if rr = 65 ∧ bs = "64k" then
    { s with rr65_64k_iops := s.rr65_64k_iops ++ [v] }
  else if rr = 100 ∧ bs = "1024k" then
    { s with rr100_1024k_iops := s.rr100_1024k_iops ++ [v] }
  else
    s

/-- The workload-execution collaborator, abstracted: for a round number and
a (mix ratio, block size) cell it returns the two aggregate counters
`fio_result["jobs"][0]["read"]["iops"]` and
`fio_result["jobs"][0]["write"]["iops"]`. -/
def Executor : Type := ℕ → ℕ → String → ℚ × ℚ

/-- One cell of the inner loops (lines 666-738): run fio on the cell, blend
the two counters, append to the matching tracked series. -/
def runCell (exec : Executor) (round_num : ℕ) (s : TrackedSeries)
    (cell : ℕ × String) : TrackedSeries :=
  trackCell s cell.1 cell.2
    (blendedIops cell.1 (exec round_num cell.1 cell.2).1 (exec round_num cell.1 cell.2).2)

/-- One full measurement round: every matrix cell in order. -/
def runRound (exec : Executor) (round_num : ℕ) (s : TrackedSeries) : TrackedSeries :=
  (matrixCells round_num).foldl (runCell exec round_num) s

/-- The convergence condition of lines 747-751: `in_steady_state` on all
three tracking variables with `MEASUREMENT_WINDOW`. -/
def allStable (s : TrackedSeries) : Bool :=
  in_steady_state s.rr0_4k_iops MEASUREMENT_WINDOW &&
    in_steady_state s.rr65_64k_iops MEASUREMENT_WINDOW &&
      in_steady_state s.rr100_1024k_iops MEASUREMENT_WINDOW

/-- The loop `for round_num in range(1, 26)` with the steady-state `break`
(lines 659-753), as structural recursion over the list of remaining round
numbers.  The second argument carries the previous value of `round_num`
(Python keeps the loop variable's last value after the loop).  Returns the
final `round_num`, the final series, and whether the loop exited through
the `break` on line 753. -/
def measureRounds (exec : Executor) :
    List ℕ → ℕ → TrackedSeries → ℕ × TrackedSeries × Bool
  | [], last, s => (last, s, false)
  | n :: rest, _, s =>
    if allStable (runRound exec n s) then
      (n, runRound exec n s, true)
    else
      measureRounds exec rest n (runRound exec n s)

/-- The whole measurement loop of `iops` (round cap 25, from
`range(1, 26)`). -/
def iopsSession (exec : Executor) : ℕ × TrackedSeries × Bool :=
  measureRounds exec (List.range' 1 25) 0 initSeries

/-- Lines 761-762: after the loop the code reports "steady state was not
reached in 25 rounds" exactly when `round_num == 25`. -/
def reportsExhausted (exec : Executor) : Bool :=
  (iopsSession exec).1 == 25

/-- The tracked series after rounds `1..n` have all executed. -/
def seriesUpTo (exec : Executor) : ℕ → TrackedSeries
  | 0 => initSeries
  | n + 1 => runRound exec (n + 1) (seriesUpTo exec n)

/-- All three tracking variables stable after round `n`. -/
def stableAfter (exec : Executor) (n : ℕ) : Bool :=
  allStable (seriesUpTo exec n)

/-- The first round in `m+1 .. m+k` after which all three series are
stable: the round where line 753's `break` fires. -/
def firstStable (exec : Executor) : ℕ → ℕ → Option ℕ
  | _, 0 => none
  | m, k + 1 =>
    if stableAfter exec (m + 1) then some (m + 1) else firstStable exec (m + 1) k

/-! ### C6: the workload matrix -/

/-- C6: every round executes exactly the 7 × 8 = 56 workload cells — the
seven mix ratios 100, 95, 65, 50, 35, 5, 0 crossed with the eight block
sizes 1024k..512b — each exactly once (no duplicates), in mix-ratio-major,
block-size-minor order with both sets descending, identically in every
round. -/
theorem matrix_cells_exact (round_num : ℕ) :
    matrixCells round_num = matrixCells 1 ∧
    (matrixCells round_num).length = 7 * 8 ∧
    (matrixCells round_num).Nodup ∧
    matrixCells round_num = [
      (100, "1024k"), (100, "128k"), (100, "64k"), (100, "32k"),
      (100, "16k"), (100, "8k"), (100, "4k"), (100, "512b"),
      (95, "1024k"), (95, "128k"), (95, "64k"), (95, "32k"),
      (95, "16k"), (95, "8k"), (95, "4k"), (95, "512b"),
      (65, "1024k"), (65, "128k"), (65, "64k"), (65, "32k"),
      (65, "16k"), (65, "8k"), (65, "4k"), (65, "512b"),
      (50, "1024k"), (50, "128k"), (50, "64k"), (50, "32k"),
      (50, "16k"), (50, "8k"), (50, "4k"), (50, "512b"),
      (35, "1024k"), (35, "128k"), (35, "64k"), (35, "32k"),
      (35, "16k"), (35, "8k"), (35, "4k"), (35, "512b"),
      (5, "1024k"), (5, "128k"), (5, "64k"), (5, "32k"),
      (5, "16k"), (5, "8k"), (5, "4k"), (5, "512b"),
      (0, "1024k"), (0, "128k"), (0, "64k"), (0, "32k"),
      (0, "16k"), (0, "8k"), (0, "4k"), (0, "512b")] := by
  refine ⟨rfl, ?_, ?_, ?_⟩
  · show (matrixCells 1).length = 7 * 8
    decide
  · show (matrixCells 1).Nodup
    decide
  · rfl

/-! ### One round appends exactly one point per tracked series -/

/-- The blended metric the round records for a cell. -/
def recordedIops (exec : Executor) (round_num rr : ℕ) (bs : String) : ℚ :=
  blendedIops rr (exec round_num rr bs).1 (exec round_num rr bs).2

lemma trackCell_rr0_4k (s : TrackedSeries) (rr : ℕ) (bs : String) (v : ℚ) :
    (trackCell s rr bs v).rr0_4k_iops =
      if rr = 0 ∧ bs = "4k" then s.rr0_4k_iops ++ [v] else s.rr0_4k_iops := by
  unfold trackCell
  split_ifs <;> rfl

lemma trackCell_rr65_64k (s : TrackedSeries) (rr : ℕ) (bs : String) (v : ℚ) :
    (trackCell s rr bs v).rr65_64k_iops =
      if ¬(rr = 0 ∧ bs = "4k") ∧ (rr = 65 ∧ bs = "64k") then
        s.rr65_64k_iops ++ [v]
      else s.rr65_64k_iops := by
  unfold trackCell
  split_ifs <;> first | rfl | tauto

lemma trackCell_rr100_1024k (s : TrackedSeries) (rr : ℕ) (bs : String) (v : ℚ) :
    (trackCell s rr bs v).rr100_1024k_iops =
      if ¬(rr = 0 ∧ bs = "4k") ∧ ¬(rr = 65 ∧ bs = "64k") ∧ (rr = 100 ∧ bs = "1024k") then
        s.rr100_1024k_iops ++ [v]
      else s.rr100_1024k_iops := by
  unfold trackCell
  split_ifs <;> first | rfl | tauto

lemma foldl_runCell_rr0_4k (exec : Executor) (round_num : ℕ)
    (cells : List (ℕ × String)) (s : TrackedSeries) :
    (cells.foldl (runCell exec round_num) s).rr0_4k_iops =
      s.rr0_4k_iops ++
        ((cells.filter fun c => c.1 = 0 ∧ c.2 = "4k").map
          fun c => blendedIops c.1 (exec round_num c.1 c.2).1 (exec round_num c.1 c.2).2) := by
  induction cells generalizing s with
  | nil => simp
  | cons c cs ih =>
    rw [List.foldl_cons, ih, List.filter_cons]
    simp only [runCell, trackCell_rr0_4k]
    by_cases h : c.1 = 0 ∧ c.2 = "4k"
    · rw [if_pos h, if_pos (decide_eq_true h)]
      simp
    · rw [if_neg h, if_neg (by simp only [decide_eq_true_eq]; exact h)]

lemma foldl_runCell_rr65_64k (exec : Executor) (round_num : ℕ)
    (cells : List (ℕ × String)) (s : TrackedSeries) :
    (cells.foldl (runCell exec round_num) s).rr65_64k_iops =
      s.rr65_64k_iops ++
        ((cells.filter fun c => ¬(c.1 = 0 ∧ c.2 = "4k") ∧ (c.1 = 65 ∧ c.2 = "64k")).map
          fun c => blendedIops c.1 (exec round_num c.1 c.2).1 (exec round_num c.1 c.2).2) := by
  induction cells generalizing s with
  | nil => simp
  | cons c cs ih =>
    rw [List.foldl_cons, ih, List.filter_cons]
    simp only [runCell, trackCell_rr65_64k]
    by_cases h : ¬(c.1 = 0 ∧ c.2 = "4k") ∧ (c.1 = 65 ∧ c.2 = "64k")
    · rw [if_pos h, if_pos (decide_eq_true h)]
      simp
    · rw [if_neg h, if_neg (by simp only [decide_eq_true_eq]; exact h)]

lemma foldl_runCell_rr100_1024k (exec : Executor) (round_num : ℕ)
    (cells : List (ℕ × String)) (s : TrackedSeries) :
    (cells.foldl (runCell exec round_num) s).rr100_1024k_iops =
      s.rr100_1024k_iops ++
        ((cells.filter fun c =>
            ¬(c.1 = 0 ∧ c.2 = "4k") ∧ ¬(c.1 = 65 ∧ c.2 = "64k") ∧
              (c.1 = 100 ∧ c.2 = "1024k")).map
          fun c => blendedIops c.1 (exec round_num c.1 c.2).1 (exec round_num c.1 c.2).2) := by
  induction cells generalizing s with
  | nil => simp
  | cons c cs ih =>
    rw [List.foldl_cons, ih, List.filter_cons]
    simp only [runCell, trackCell_rr100_1024k]
    by_cases h : ¬(c.1 = 0 ∧ c.2 = "4k") ∧ ¬(c.1 = 65 ∧ c.2 = "64k") ∧
        (c.1 = 100 ∧ c.2 = "1024k")
    · rw [if_pos h, if_pos (decide_eq_true h)]
      simp
    · rw [if_neg h, if_neg (by simp only [decide_eq_true_eq]; exact h)]

lemma runRound_rr0_4k (exec : Executor) (n : ℕ) (s : TrackedSeries) :
    (runRound exec n s).rr0_4k_iops = s.rr0_4k_iops ++ [recordedIops exec n 0 "4k"] := by
  unfold runRound
  rw [foldl_runCell_rr0_4k]
  rfl

lemma runRound_rr65_64k (exec : Executor) (n : ℕ) (s : TrackedSeries) :
    (runRound exec n s).rr65_64k_iops = s.rr65_64k_iops ++ [recordedIops exec n 65 "64k"] := by
  unfold runRound
  rw [foldl_runCell_rr65_64k]
  rfl

lemma runRound_rr100_1024k (exec : Executor) (n : ℕ) (s : TrackedSeries) :
    (runRound exec n s).rr100_1024k_iops =
      s.rr100_1024k_iops ++ [recordedIops exec n 100 "1024k"] := by
  unfold runRound
  rw [foldl_runCell_rr100_1024k]
  rfl

/-! ### C5 -/

/-- C5: after every completed round `n` each of the three tracked series has
length exactly `n`; each round appends exactly one point to each series (the
series after round `n+1` is the series after round `n` plus one element),
and the earlier series is always a prefix of the later one (never truncated
or reordered). -/
theorem tracked_series_per_round (exec : Executor) (n : ℕ) :
    ((seriesUpTo exec n).rr0_4k_iops.length = n ∧
      (seriesUpTo exec n).rr65_64k_iops.length = n ∧
      (seriesUpTo exec n).rr100_1024k_iops.length = n) ∧
    ((seriesUpTo exec (n + 1)).rr0_4k_iops =
        (seriesUpTo exec n).rr0_4k_iops ++ [recordedIops exec (n + 1) 0 "4k"] ∧
      (seriesUpTo exec (n + 1)).rr65_64k_iops =
        (seriesUpTo exec n).rr65_64k_iops ++ [recordedIops exec (n + 1) 65 "64k"] ∧
      (seriesUpTo exec (n + 1)).rr100_1024k_iops =
        (seriesUpTo exec n).rr100_1024k_iops ++ [recordedIops exec (n + 1) 100 "1024k"]) ∧
    ((seriesUpTo exec n).rr0_4k_iops <+: (seriesUpTo exec (n + 1)).rr0_4k_iops ∧
      (seriesUpTo exec n).rr65_64k_iops <+: (seriesUpTo exec (n + 1)).rr65_64k_iops ∧
      (seriesUpTo exec n).rr100_1024k_iops <+: (seriesUpTo exec (n + 1)).rr100_1024k_iops) := by
  refine ⟨?_, ?_, ?_⟩
  · induction n with
    | zero => exact ⟨rfl, rfl, rfl⟩
    | succ k ih =>
      have e : seriesUpTo exec (k + 1) = runRound exec (k + 1) (seriesUpTo exec k) := rfl
      rw [e, runRound_rr0_4k, runRound_rr65_64k, runRound_rr100_1024k]
      simp [ih.1, ih.2.1, ih.2.2]
  · exact ⟨runRound_rr0_4k exec (n + 1) _, runRound_rr65_64k exec (n + 1) _,
      runRound_rr100_1024k exec (n + 1) _⟩
  · exact ⟨⟨[recordedIops exec (n + 1) 0 "4k"], (runRound_rr0_4k exec (n + 1) _).symm⟩,
      ⟨[recordedIops exec (n + 1) 65 "64k"], (runRound_rr65_64k exec (n + 1) _).symm⟩,
      ⟨[recordedIops exec (n + 1) 100 "1024k"], (runRound_rr100_1024k exec (n + 1) _).symm⟩⟩

/-! ### C7 -/

/-- C7: the blended metric recorded for a cell with mix ratio `rr` equals
`(rr/100) * readIOPS + (1 - rr/100) * writeIOPS` of the counters the
workload-execution collaborator returned, and exactly that value is what a
round appends to each of the three designated tracked series. -/
theorem blended_metric_formula (exec : Executor) (n rr : ℕ) (bs : String)
    (s : TrackedSeries) :
    recordedIops exec n rr bs =
      ((rr : ℚ) / 100) * (exec n rr bs).1 + (1 - (rr : ℚ) / 100) * (exec n rr bs).2 ∧
    (runRound exec n s).rr0_4k_iops = s.rr0_4k_iops ++ [recordedIops exec n 0 "4k"] ∧
    (runRound exec n s).rr65_64k_iops = s.rr65_64k_iops ++ [recordedIops exec n 65 "64k"] ∧
    (runRound exec n s).rr100_1024k_iops =
      s.rr100_1024k_iops ++ [recordedIops exec n 100 "1024k"] :=
  ⟨rfl, runRound_rr0_4k exec n s, runRound_rr65_64k exec n s,
    runRound_rr100_1024k exec n s⟩

/-! ### Characterizing the loop -/

lemma seriesUpTo_succ (exec : Executor) (n : ℕ) :
    seriesUpTo exec (n + 1) = runRound exec (n + 1) (seriesUpTo exec n) := rfl

lemma measureRounds_nil (exec : Executor) (last : ℕ) (s : TrackedSeries) :
    measureRounds exec [] last s = (last, s, false) := rfl

lemma measureRounds_cons (exec : Executor) (n : ℕ) (rest : List ℕ) (last : ℕ)
    (s : TrackedSeries) :
    measureRounds exec (n :: rest) last s =
      if allStable (runRound exec n s) then (n, runRound exec n s, true)
      else measureRounds exec rest n (runRound exec n s) := rfl

lemma measureRounds_char (exec : Executor) :
    ∀ (k m : ℕ),
      measureRounds exec (List.range' (m + 1) k) m (seriesUpTo exec m) =
        match firstStable exec m k with
        | some n => (n, seriesUpTo exec n, true)
        | none => (m + k, seriesUpTo exec (m + k), false) := by
  intro k
  induction k with
  | zero =>
    intro m
    simp [measureRounds, firstStable]
  | succ k ih =>
    intro m
    rw [show List.range' (m + 1) (k + 1) = (m + 1) :: List.range' (m + 2) k from rfl,
      measureRounds_cons, ← seriesUpTo_succ]
    unfold firstStable
    by_cases hs : stableAfter exec (m + 1) = true
    · rw [if_pos (show allStable (seriesUpTo exec (m + 1)) = true from hs), if_pos hs]
    · have hsf : allStable (seriesUpTo exec (m + 1)) = false := by
        simpa [stableAfter] using hs
      rw [if_neg (by simp [hsf]), if_neg hs]
      have hstep := ih (m + 1)
      rw [show m + 1 + 1 = m + 2 from rfl] at hstep
      rw [hstep]
      cases hfs : firstStable exec (m + 1) k <;>
        simp [hfs, Nat.add_assoc, Nat.add_comm 1 k]

lemma iopsSession_char (exec : Executor) :
    iopsSession exec =
      match firstStable exec 0 25 with
      | some n => (n, seriesUpTo exec n, true)
      | none => (25, seriesUpTo exec 25, false) := by
  have h := measureRounds_char exec 25 0
  simpa [iopsSession, seriesUpTo] using h

lemma firstStable_some_spec (exec : Executor) :
    ∀ k m n, firstStable exec m k = some n →
      m < n ∧ n ≤ m + k ∧ stableAfter exec n = true ∧
        ∀ j, m < j → j < n → stableAfter exec j = false := by
  intro k
  induction k with
  | zero =>
    intro m n h
    exact absurd h (by simp [firstStable])
  | succ k ih =>
    intro m n h
    unfold firstStable at h
    by_cases hs : stableAfter exec (m + 1) = true
    · rw [if_pos hs] at h
      obtain rfl : m + 1 = n := Option.some.inj h
      exact ⟨Nat.lt_succ_self m, by omega, hs, fun j hj1 hj2 => (by omega : False).elim⟩
    · rw [if_neg hs] at h
      have hsf : stableAfter exec (m + 1) = false := by simpa using hs
      obtain ⟨h1, h2, h3, h4⟩ := ih (m + 1) n h
      refine ⟨by omega, by omega, h3, fun j hj1 hj2 => ?_⟩
      rcases Nat.eq_or_lt_of_le (Nat.succ_le_of_lt hj1) with he | hl
      · rw [← he]
        exact hsf
      · exact h4 j hl hj2

lemma firstStable_none_spec (exec : Executor) :
    ∀ k m, firstStable exec m k = none →
      ∀ j, m < j → j ≤ m + k → stableAfter exec j = false := by
  intro k
  induction k with
  | zero =>
    intro m _ j hj1 hj2
    exact (by omega : False).elim
  | succ k ih =>
    intro m h j hj1 hj2
    unfold firstStable at h
    by_cases hs : stableAfter exec (m + 1) = true
    · rw [if_pos hs] at h
      exact absurd h (by simp)
    · rw [if_neg hs] at h
      have hsf : stableAfter exec (m + 1) = false := by simpa using hs
      rcases Nat.eq_or_lt_of_le (Nat.succ_le_of_lt hj1) with he | hl
      · rw [← he]
        exact hsf
      · exact ih (m + 1) h j hl (by omega)

/-! ### C4 -/

/-- C4: the measurement loop runs at most 25 rounds; it converges (the
`break` fires) exactly when some round `n ≤ 25` leaves all three tracked
series stable; on convergence the final round is the *first* such round
(every earlier round left the series not all stable, so the loop proceeded
to the next round); without convergence the loop runs exactly 25 rounds and
terminates normally; the final series is the series of the final round. -/
theorem measurement_loop_behavior (exec : Executor) :
    (1 ≤ (iopsSession exec).1 ∧ (iopsSession exec).1 ≤ 25) ∧
    ((iopsSession exec).2.2 = true ↔
      ∃ n, 1 ≤ n ∧ n ≤ 25 ∧ stableAfter exec n = true) ∧
    ((iopsSession exec).2.2 = true →
      stableAfter exec (iopsSession exec).1 = true ∧
        ∀ m, 1 ≤ m → m < (iopsSession exec).1 → stableAfter exec m = false) ∧
    ((iopsSession exec).2.2 = false →
      (iopsSession exec).1 = 25 ∧
        ∀ n, 1 ≤ n → n ≤ 25 → stableAfter exec n = false) ∧
    (iopsSession exec).2.1 = seriesUpTo exec (iopsSession exec).1 := by
  have hchar := iopsSession_char exec
  cases hfs : firstStable exec 0 25 with
  | some n =>
    rw [hfs] at hchar
    obtain ⟨h1, h2, h3, h4⟩ := firstStable_some_spec exec 25 0 n hfs
    have h2' : n ≤ 25 := by omega
    rw [hchar]
    refine ⟨⟨h1, h2'⟩, ?_, ?_, ?_, rfl⟩
    · exact ⟨fun _ => ⟨n, h1, h2', h3⟩, fun _ => rfl⟩
    · exact fun _ => ⟨h3, fun m hm1 hm2 => h4 m hm1 hm2⟩
    · intro hfalse
      exact absurd hfalse (by simp)
  | none =>
    rw [hfs] at hchar
    have h0 : ∀ j, 0 < j → j ≤ 25 → stableAfter exec j = false :=
      fun j a b => firstStable_none_spec exec 25 0 hfs j a (by omega)
    rw [hchar]
    refine ⟨⟨by norm_num, le_refl 25⟩, ?_, ?_, ?_, rfl⟩
    · constructor
      · intro hfalse
        exact absurd hfalse (by simp)
      · rintro ⟨n, hn1, hn2, hn3⟩
        rw [h0 n hn1 hn2] at hn3
        exact absurd hn3 (by simp)
    · intro hfalse
      exact absurd hfalse (by simp)
    · exact fun _ => ⟨rfl, fun n hn1 hn2 => h0 n hn1 hn2⟩

/-! ### C3: the terminal-state report

After the loop, line 761 tests `round_num == 25`.  Python's loop variable
keeps its value after a `break`: when the loop converges exactly at round
25, `round_num == 25` holds as well, so the session logs "steady state was
not reached in 25 rounds" right after having logged "steady state, breaking
the loop". -/

/-- An executor whose counters make every tracked series equal
`1000, 2000, ..., 20000, 100, 100, 100, 100, 100`: all three tracked series
first satisfy the steady-state criteria exactly after round 25. -/
def lateConvergenceExec : Executor := fun round_num _ _ =>
  if round_num ≤ 20 then ((1000 * round_num : ℚ), (1000 * round_num : ℚ))
  else (100, 100)

/-- C3 (code bug): with `lateConvergenceExec` the loop converges through the
`break` exactly at round 25, yet the final `round_num == 25` test is also
true, so the session reports "steady state was not reached in 25 rounds" on
a converged run: the CONVERGED and EXHAUSTED reports are not mutually
exclusive as the spec requires. -/
theorem exhausted_report_despite_convergence :
    (iopsSession lateConvergenceExec).2.2 = true ∧
    (iopsSession lateConvergenceExec).1 = 25 ∧
    reportsExhausted lateConvergenceExec = true := by
  with_unfolding_all decide

/-! ### C8: collaborator failures are fatal

`run()` (lines 80-93), `save_file()` (lines 45-54), `read_file()` (lines
57-66) and the JSON parsing in `run_and_save_fio` (line 377, via
`get_nvme_namespace`-style `json.loads` guards) all catch any failure —
subprocess returning non-success or unrunnable, unwritable or unreadable
artifact file, unparseable output — and call `sys.exit(1)`.  We model the
workload-execution collaborator as `Except`-valued; the session threads
through `Except`, so the first error aborts everything. -/

/-- The fallible workload-execution collaborator: either the two IOPS
counters, or the error (subprocess, artifact file or parse failure) on
which the Python wrappers call `sys.exit(1)`. -/
def ExecutorE : Type := ℕ → ℕ → String → Except String (ℚ × ℚ)

/-- One cell with the fallible collaborator. -/
def runCellE (exec : ExecutorE) (round_num : ℕ) (s : TrackedSeries)
    (cell : ℕ × String) : Except String TrackedSeries := do
  let r ← exec round_num cell.1 cell.2
  pure (trackCell s cell.1 cell.2 (blendedIops cell.1 r.1 r.2))

/-- One round with the fallible collaborator. -/
def runRoundE (exec : ExecutorE) (round_num : ℕ) (s : TrackedSeries) :
    Except String TrackedSeries :=
  (matrixCells round_num).foldlM (runCellE exec round_num) s

/-- The measurement loop with the fallible collaborator. -/
def measureRoundsE (exec : ExecutorE) :
    List ℕ → ℕ → TrackedSeries → Except String (ℕ × TrackedSeries × Bool)
  | [], last, s => .ok (last, s, false)
  | n :: rest, _, s =>
    match runRoundE exec n s with
    | .error e => .error e
    | .ok s' =>
      if allStable s' then .ok (n, s', true) else measureRoundsE exec rest n s'

lemma foldlM_runCellE_error (exec : ExecutorE) (round_num : ℕ) :
    ∀ (pre : List (ℕ × String)) (c : ℕ × String) (post : List (ℕ × String))
      (s : TrackedSeries) (e : String),
      (∀ p ∈ pre, ∃ v, exec round_num p.1 p.2 = .ok v) →
      exec round_num c.1 c.2 = .error e →
      (pre ++ c :: post).foldlM (runCellE exec round_num) s = .error e := by
  intro pre
  induction pre with
  | nil =>
    intro c post s e _ hc
    show (c :: post).foldlM (runCellE exec round_num) s = .error e
    simp only [List.foldlM_cons, runCellE, hc]
    rfl
  | cons p ps ih =>
    intro c post s e hpre hc
    obtain ⟨v, hv⟩ := hpre p (by simp)
    show (p :: (ps ++ c :: post)).foldlM (runCellE exec round_num) s = .error e
    rw [List.foldlM_cons]
    simp only [runCellE, hv]
    exact ih c post _ e (fun q hq => hpre q (by simp [hq])) hc

/-- C8: a collaborator failure is fatal to the whole session.  If, in some
round, the workload-execution collaborator succeeds on the cells before `c`
and fails on `c` with error `e`, then the round aborts with exactly `e`
(the point of failure: no retry, no cell skipping), and a session arriving
at that round aborts with `e` — no further rounds are attempted, whatever
rounds remained. -/
theorem collaborator_failure_fatal (exec : ExecutorE) (e : String) (n : ℕ)
    (s : TrackedSeries) (last : ℕ) (rest : List ℕ)
    (pre post : List (ℕ × String)) (c : ℕ × String)
    (hm : matrixCells n = pre ++ c :: post)
    (hpre : ∀ p ∈ pre, ∃ v, exec n p.1 p.2 = .ok v)
    (hc : exec n c.1 c.2 = .error e) :
    runRoundE exec n s = .error e ∧
    measureRoundsE exec (n :: rest) last s = .error e := by
  have h1 : runRoundE exec n s = .error e := by
    unfold runRoundE
    rw [hm]
    exact foldlM_runCellE_error exec n pre c post s e hpre hc
  exact ⟨h1, by simp [measureRoundsE, h1]⟩

/-- A collaborator that always fails. -/
def failingExec : ExecutorE := fun _ _ _ => .error "fio failed"

/-- C8 witness: with the always-failing collaborator the session aborts at
the first cell of round 1 with that cell's error. -/
theorem collaborator_failure_fatal_witness :
    runRoundE failingExec 1 initSeries = .error "fio failed" ∧
    measureRoundsE failingExec (1 :: List.range' 2 24) 0 initSeries = .error "fio failed" :=
  collaborator_failure_fatal failingExec "fio failed" 1 initSeries 0 (List.range' 2 24)
    [] ((matrixCells 1).tail) (100, "1024k") rfl (by simp) rfl

/-! ### C9: workload-independent preconditioning volume

Lines 621-633: `size` caps each thread's range at the active range and
`io_size = int(2 * physical_size / thread_count)` fixes each thread's I/O
volume.  `2 * p / tc` is Python float division; dividing by
`tc ∈ {2, 4}` only changes the binary exponent, so it is exact for any
realistic size and `int` truncates toward zero: the per-thread volume is
the floor `⌊2p / tc⌋`, and the total over the threads is exactly
`2 * physical_size` only when `thread_count` divides `2 * physical_size`. -/

/-- The `--mode` choice: PTS-C (client) or PTS-E (enterprise). -/
inductive PtsMode
  | ptsC
  | ptsE
deriving DecidableEq

/-- The `thread_count` per mode (lines 589 and 599). -/
def thread_count : PtsMode → ℕ
  | .ptsE => 4
  | .ptsC => 2

/-- The `active_range` per mode (lines 587 and 597; `int(0.75 * physical_size)`
is `⌊3p/4⌋`, the float product being exact). -/
def active_range (mode : PtsMode) (physical_size : ℕ) : ℕ :=
  match mode with
  | .ptsE => physical_size
  | .ptsC => 3 * physical_size / 4

/-- The job parameter `size` (line 621, the active range in KiB): each thread's address
range is capped at the active range. -/
def wipcSize (mode : PtsMode) (physical_size : ℕ) : ℕ :=
  active_range mode physical_size

/-- The job parameter `io_size = int(2 * physical_size / thread_count)`
(line 622): each thread's preconditioning I/O volume in KiB. -/
def io_size (physical_size tc : ℕ) : ℕ :=
  2 * physical_size / tc

/-- C9 counterexample: in PTS-E mode (4 threads) with an odd physical size
of 3 KiB, each thread gets `⌊6/4⌋ = 1` KiB and the total is 4 KiB, which is
`2 * 3 - 2` and not the claimed exact `2 * 3 = 6` KiB. -/
theorem total_wipc_volume_not_exact :
    thread_count .ptsE * io_size 3 (thread_count .ptsE) = 2 * 3 - 2 ∧
    thread_count .ptsE * io_size 3 (thread_count .ptsE) ≠ 2 * 3 := by
  constructor <;> decide

/-- C9 (amended): each thread's preconditioning volume is
`⌊2 * physical_size / thread_count⌋` KiB, with the address range capped at
the active range; the total over all threads equals exactly
`2 * physical_size` if and only if `thread_count` divides
`2 * physical_size` — always in PTS-C mode (2 threads), and in PTS-E mode
(4 threads) exactly for an even physical size; for an odd physical size in
PTS-E the truncation loses the remainder and the total is
`2 * physical_size - 2`. -/
theorem total_wipc_volume (mode : PtsMode) (p : ℕ) :
    (thread_count mode * io_size p (thread_count mode) = 2 * p ↔
      thread_count mode ∣ 2 * p) ∧
    thread_count .ptsC * io_size p (thread_count .ptsC) = 2 * p ∧
    (thread_count .ptsE * io_size p (thread_count .ptsE) = 2 * p ↔ Even p) ∧
    (Odd p → thread_count .ptsE * io_size p (thread_count .ptsE) = 2 * p - 2) ∧
    wipcSize mode p = active_range mode p := by
  refine ⟨?_, ?_, ?_, ?_, rfl⟩
  · constructor
    · intro h
      exact ⟨io_size p (thread_count mode), h.symm⟩
    · exact fun hdvd => Nat.mul_div_cancel' hdvd
  · show 2 * (2 * p / 2) = 2 * p
    rw [Nat.mul_div_cancel_left p (by norm_num : 0 < 2)]
  · constructor
    · intro h
      obtain ⟨c, hc⟩ : (4 : ℕ) ∣ 2 * p := ⟨io_size p 4, h.symm⟩
      exact ⟨c, by omega⟩
    · rintro ⟨r, rfl⟩
      show 4 * (2 * (r + r) / 4) = 2 * (r + r)
      omega
  · rintro ⟨m, rfl⟩
    show 4 * (2 * (2 * m + 1) / 4) = 2 * (2 * m + 1) - 2
    omega

end SssPts
